import Mathlib

/-!
# Verification of the cohort-partitioning utilities

Shallow embedding of `src/data/preprocess/lib/utils.py`: the string/tuple
parser, the blacklist registry, the zero-padded cohort builder and its
blacklist filter, the seeded train/test/val splitter, and the ROI position
extractors.  Python strings are `String`/`List Char`, Python `int` is
`Int`/`Nat`, Python `float` ratios are modelled exactly as `ℚ`, fallible
operations return `Option`.
-/

set_option maxRecDepth 100000

namespace CardiacSeg

/-- Python `str.strip(chars)`: removes from both ends every leading and
trailing character that occurs in `chars`. -/
def pyStrip (chars : List Char) (s : List Char) : List Char :=
  ((s.dropWhile (chars.contains ·)).reverse.dropWhile (chars.contains ·)).reverse

/-- Python `str.split(sep)` for a one-character separator: splits at every
occurrence of `sep`, keeping empty segments (`"".split(",") == [""]`). -/
def pySplitOn (sep : Char) : List Char → List (List Char)
  | [] => [[]]
  | c :: cs =>
    match pySplitOn sep cs with
    | [] => if c = sep then [[], []] else [[c]]
    | g :: gs => if c = sep then [] :: g :: gs else (c :: g) :: gs

/-- Decimal value of a digit list (most significant first). -/
def digitsToNat (ds : List Char) : Nat :=
  ds.foldl (fun a c => 10 * a + (c.toNat - 48)) 0

/-- Exponent part of a Python float literal: after an `e`/`E` an optional
sign and a mandatory digit run; no `e` at all is exponent `0`.  Returns the
exponent and the unconsumed tail, or `none` on a malformed exponent. -/
def parseExpPart : List Char → Option (Int × List Char)
  | 'e' :: r =>
    let sg : Int := match r with | '-' :: _ => -1 | _ => 1
    let r2 := match r with | '-' :: t => t | '+' :: t => t | t => t
    let ds := r2.takeWhile Char.isDigit
    if ds.isEmpty then none else some (sg * (digitsToNat ds : Int), r2.dropWhile Char.isDigit)
  | 'E' :: r =>
    let sg : Int := match r with | '-' :: _ => -1 | _ => 1
    let r2 := match r with | '-' :: t => t | '+' :: t => t | t => t
    let ds := r2.takeWhile Char.isDigit
    if ds.isEmpty then none else some (sg * (digitsToNat ds : Int), r2.dropWhile Char.isDigit)
  | r => some (0, r)

/-- Python `float(s)` on the decimal-literal subset (optional surrounding
whitespace, optional sign, digits with optional fraction part, optional
exponent), with the value taken exactly as a rational.  `none` models the
`ValueError` raised on a non-numeric string. -/
def pyFloatQ (s : List Char) : Option ℚ :=
  let s1 := s.dropWhile Char.isWhitespace
  let sgn : Int := match s1 with | '-' :: _ => -1 | _ => 1
  let s2 := match s1 with | '-' :: t => t | '+' :: t => t | t => t
  let ip := s2.takeWhile Char.isDigit
  let s3 := s2.dropWhile Char.isDigit
  let fp := match s3 with | '.' :: r => r.takeWhile Char.isDigit | _ => []
  let s4 := match s3 with | '.' :: r => r.dropWhile Char.isDigit | r => r
  if ip.isEmpty && fp.isEmpty then none
  else
    match parseExpPart s4 with
    | none => none
    | some (e, s5) =>
      if s5.dropWhile Char.isWhitespace = [] then
        let mantNum : Int :=
          sgn * ((digitsToNat ip * Nat.pow 10 fp.length + digitsToNat fp : Nat) : Int)
        if 0 ≤ e then
          some (mkRat (mantNum * ((Nat.pow 10 e.toNat : Nat) : Int))
            (Nat.pow 10 fp.length))
        else
          some (mkRat mantNum (Nat.pow 10 fp.length * Nat.pow 10 (-e).toNat))
      else none

/-- Python `int(x)` on a real value: truncation toward zero. -/
def pyIntTrunc (q : ℚ) : Int :=
  if q < 0 then -⌊-q⌋ else ⌊q⌋

/-- Resolve a Python slice endpoint against a sequence of length `n`:
negative indices count from the end, and the result is clamped to `[0, n]`. -/
def pyResolve (n : Nat) (i : Int) : Nat :=
  if i < 0 then ((n : Int) + i).toNat else min i.toNat n

/-- Python `l[:b]`. -/
def pySliceTo (l : List α) (b : Int) : List α :=
  l.take (pyResolve l.length b)

/-- Python `l[a:b]`. -/
def pySliceFromTo (l : List α) (a b : Int) : List α :=
  (l.take (pyResolve l.length b)).drop (pyResolve l.length a)

/-- Python `l[a:]`. -/
def pySliceFrom (l : List α) (a : Int) : List α :=
  l.drop (pyResolve l.length a)

/-- Python `str.zfill(width)` for sign-free strings: left-pad with `'0'`
up to `width`; a string at least `width` long is returned unchanged. -/
def zfill (s : String) (width : Nat) : String :=
  if width ≤ s.length then s
  else ⟨List.replicate (width - s.length) '0' ++ s.toList⟩

/-- `string_to_int_tuple` from `utils.py`: strips `'('`/`')'` characters
from both ends, splits on `','`, converts each segment with
`int(float(seg))`, and collects the results.  `none` models the
`ValueError` raised when some segment is not numeric. -/
def string_to_int_tuple (s : String) : Option (List Int) :=
  let stripped := pyStrip ['(', ')'] s.toList
  let string_input_list := pySplitOn ',' stripped
  string_input_list.mapM (fun seg => (pyFloatQ seg).map pyIntTrunc)

/-- `blacklist_pixel_overlap` from `utils.py`: patients with overlapping
pixels between ROIs after float-to-int conversion. -/
def blacklist_pixel_overlap : List String :=
  ["132", "428", "004", "037", "116", "144", "300", "161", "283", "303",
   "154", "305", "289", "387", "013"]

/-- `blacklist_mislabelled_roi` from `utils.py`: patients with a
mislabelled ROI (no artery location). -/
def blacklist_mislabelled_roi : List String :=
  ["398", "238"]

/-- `blacklist_multiple_image_id_with_roi` from `utils.py`: patients with
multiple images carrying an ROI label. -/
def blacklist_multiple_image_id_with_roi : List String :=
  ["192", "276", "435", "155", "189", "358", "194", "228", "078", "417",
   "165", "146", "120", "156"]

/-- `blacklist_multiple_image_id` from `utils.py`: patients with multiple
idx in their image data. -/
def blacklist_multiple_image_id : List String :=
  ["607", "641", "358", "194", "417", "453", "493", "156", "726", "155",
   "685", "228", "684", "146", "192", "189", "165", "700", "078", "276",
   "435", "398", "638", "513", "545", "741", "120"]

/-- `blacklist_invalid_dicom` from `utils.py`: patients with invalid dicom
data. -/
def blacklist_invalid_dicom : List String :=
  ["159"]

/-- `blacklist_no_image` from `utils.py`: patients with the image missing
entirely. -/
def blacklist_no_image : List String :=
  ["012", "197", "598"]

/-- `patient_number_zfill_range` from `utils.py`: `str(i).zfill(3)` for
`i in range(min_val, max_val + 1)`.  Patient numbers are nonnegative, so
the range bounds are naturals. -/
def patient_number_zfill_range (min_val max_val : Nat) : List String :=
  (List.range' min_val (max_val + 1 - min_val)).map (fun i => zfill (Nat.repr i) 3)

/-- Computable lexicographic comparison of character lists, by code
point: the comparison Python's `sorted` performs on strings. -/
def lexLe : List Char → List Char → Bool
  | [], _ => true
  | _ :: _, [] => false
  | a :: as, b :: bs =>
    if a < b then true else if b < a then false else lexLe as bs

/-- Lexicographic string comparison (`lexLe` on the character data). -/
def strLe (a b : String) : Bool :=
  lexLe a.data b.data

/-- `filtered_patient_number_zfill_range` from `utils.py`: the generated
range as a set, minus five blacklist sets (the with-roi blacklist is not
subtracted by the code), returned sorted.  Python's
`sorted(list(set_difference))` is modelled as filter, then `dedup` (set
construction), then an insertion sort under the lexicographic string
order (`strLe`, proved below to agree with `· ≤ ·` on `String`). -/
def filtered_patient_number_zfill_range (min_val max_val : Nat) : List String :=
  let patient_number_list := patient_number_zfill_range min_val max_val
  let remaining := patient_number_list.filter (fun s =>
    decide (s ∉ blacklist_pixel_overlap ∧ s ∉ blacklist_mislabelled_roi ∧
      s ∉ blacklist_multiple_image_id ∧ s ∉ blacklist_invalid_dicom ∧
      s ∉ blacklist_no_image))
  remaining.dedup.insertionSort (fun a b => strLe a b = true)

/-- One step of the linear congruential generator that drives the
modelled shuffle. -/
def npNext (s : Nat) : Nat :=
  (1103515245 * s + 12345) % 4294967296

/-- Modelled from the spec: `np.random.seed(seed)` followed by
`np.random.shuffle(data)` (numpy library code, not part of this
repository) "deterministically shuffles the cohort using the seed as the
sole source of randomness".  Modelled as a Fisher-Yates-style permutation
drawing indices from a seed-keyed generator; the fuel argument (always
called with the list length) makes the recursion structural. -/
def npShuffleFuel : Nat → Nat → List α → List α
  | 0, _, l => l
  | _ + 1, _, [] => []
  | fuel + 1, s, a :: rest =>
    let l := a :: rest
    let i := npNext s % l.length
    have hi : i < l.length := Nat.mod_lt _ (Nat.succ_pos _)
    l.get ⟨i, hi⟩ :: npShuffleFuel fuel (npNext s) (l.take i ++ l.drop (i + 1))

/-- The modelled in-place shuffle of a list under a seed. -/
def npShuffle (seed : Nat) (l : List α) : List α :=
  npShuffleFuel l.length (npNext seed) l

/-- The three groups returned by the splitter. -/
structure SplitResult (α : Type) where
  train : List α
  test : List α
  val : List α

/-- `train_test_val_split` from `utils.py`: seeds the generator, shuffles
the data in place, and returns the three Python slices
`data[:num_train]`, `data[num_train : num_train + num_test]`,
`data[num_train + num_test :]`, with `num_train = int(n * split[0])` and
`num_test = int(n * split[1])`.  The code performs no validation and has
no raising path for list and ratio inputs. -/
def train_test_val_split (input_list : List α) (split : ℚ × ℚ)
    (random_seed : Nat) : SplitResult α :=
  let data := npShuffle random_seed input_list
  let num_samples : Nat := data.length
  let num_train : Int := pyIntTrunc ((num_samples : ℚ) * split.1)
  let num_test : Int := pyIntTrunc ((num_samples : ℚ) * split.2)
  ⟨pySliceTo data num_train,
   pySliceFromTo data num_train (num_train + num_test),
   pySliceFrom data (num_train + num_test)⟩

/-- The state of the caller's `input_list` after `train_test_val_split`
returns: in the source, `data = input_list` merely aliases the caller's
list and `np.random.shuffle(data)` permutes it in place, so the caller is
left holding the shuffled list. -/
def train_test_val_split_input_after (input_list : List α) (split : ℚ × ℚ)
    (random_seed : Nat) : List α :=
  npShuffle random_seed input_list

/-- A binary ROI record: an image index and its flat position list. -/
structure BinRecord where
  idx : Nat
  pos : List (Int × Int)

/-- One labelled region of a multiclass ROI record. -/
structure RoiEntry where
  loc : Int
  pos : List (Int × Int)

/-- A multiclass ROI record: an image index and its labelled regions. -/
structure MultRecord where
  idx : Nat
  roi : List RoiEntry

/-- `get_pos_from_bin_list` from `utils.py`:
`list(filter(lambda x: x["idx"] == idx, bin_list))[0]["pos"]`.  Taking
element `[0]` of an empty filter result raises `IndexError`, modelled by
`none`. -/
def get_pos_from_bin_list (bin_list : List BinRecord) (idx : Nat) :
    Option (List (Int × Int)) :=
  ((bin_list.filter (fun x => x.idx == idx)).head?).map (fun r => r.pos)

/-- `get_pos_from_mult_list` from `utils.py`: finds the first record with
the given index (IndexError, i.e. `none`, when there is none) and flattens
its regions into `[pos[0], pos[1], loc]` triples. -/
def get_pos_from_mult_list (mult_list : List MultRecord) (idx : Nat) :
    Option (List (Int × Int × Int)) :=
  ((mult_list.filter (fun x => x.idx == idx)).head?).map (fun r =>
    r.roi.foldl (fun out_list roi =>
      out_list ++ roi.pos.map (fun p => (p.1, p.2, roi.loc))) [])

/-! ## Helper lemmas about the cohort builder -/

lemma lexLe_iff_not_lex :
    ∀ x y : List Char, lexLe x y = true ↔ ¬ List.Lex (· < ·) y x := by
  intro x
  induction x with
  | nil =>
    intro y
    constructor
    · intro _
      exact List.Lex.not_nil_right _ _
    · intro _
      rfl
  | cons a as ih =>
    intro y
    cases y with
    | nil =>
      constructor
      · intro h
        simp [lexLe] at h
      · intro hn
        exact absurd List.Lex.nil hn
    | cons b bs =>
      show (if a < b then true else if b < a then false else lexLe as bs) = true ↔ _
      by_cases hab : a < b
      · rw [if_pos hab]
        constructor
        · intro _ hlex
          cases hlex with
          | cons h => exact lt_irrefl _ hab
          | rel h => exact lt_asymm hab h
        · intro _
          rfl
      · rw [if_neg hab]
        by_cases hba : b < a
        · rw [if_pos hba]
          constructor
          · intro h
            simp at h
          · intro hn
            exact absurd (List.Lex.rel hba) hn
        · rw [if_neg hba]
          have heq : a = b := le_antisymm (not_lt.mp hba) (not_lt.mp hab)
          subst heq
          rw [ih bs]
          constructor
          · intro hn hlex
            cases hlex with
            | cons h => exact hn h
            | rel h => exact lt_irrefl _ h
          · intro hn hlex
            exact hn (List.Lex.cons hlex)

lemma strLe_iff (a b : String) : strLe a b = true ↔ a ≤ b := by
  rw [String.le_iff_toList_le, ← not_lt]
  exact lexLe_iff_not_lex a.data b.data

instance : IsTotal String (fun a b => strLe a b = true) :=
  ⟨fun a b => by
    rcases le_total a b with h | h
    · exact Or.inl ((strLe_iff a b).mpr h)
    · exact Or.inr ((strLe_iff b a).mpr h)⟩

instance : IsTrans String (fun a b => strLe a b = true) :=
  ⟨fun a b c hab hbc =>
    (strLe_iff a c).mpr (le_trans ((strLe_iff a b).mp hab) ((strLe_iff b c).mp hbc))⟩

lemma length_patient_number_zfill_range (mn mx : Nat) :
    (patient_number_zfill_range mn mx).length = mx + 1 - mn := by
  simp [patient_number_zfill_range]

lemma width3_of_le_999 : ∀ i < 1000, (zfill (Nat.repr i) 3).length = 3 := by decide

lemma mem_filtered_iff {mn mx : Nat} {x : String} :
    x ∈ filtered_patient_number_zfill_range mn mx ↔
      x ∈ patient_number_zfill_range mn mx ∧
      x ∉ blacklist_pixel_overlap ∧ x ∉ blacklist_mislabelled_roi ∧
      x ∉ blacklist_multiple_image_id ∧ x ∉ blacklist_invalid_dicom ∧
      x ∉ blacklist_no_image := by
  unfold filtered_patient_number_zfill_range
  simp [List.mem_filter, decide_eq_true_eq, and_assoc]

lemma withRoi_sub_multipleImage :
    ∀ x ∈ blacklist_multiple_image_id_with_roi, x ∈ blacklist_multiple_image_id := by
  decide

lemma nodup_filtered (mn mx : Nat) :
    (filtered_patient_number_zfill_range mn mx).Nodup := by
  unfold filtered_patient_number_zfill_range
  exact ((List.perm_insertionSort _ _).nodup_iff).mpr (List.nodup_dedup _)

lemma sorted_filtered (mn mx : Nat) :
    (filtered_patient_number_zfill_range mn mx).Sorted (· ≤ ·) := by
  unfold filtered_patient_number_zfill_range
  exact (List.sorted_insertionSort _ _).imp (fun h => (strLe_iff _ _).mp h)

/-! ## Helper lemmas about the shuffle and the slices -/

lemma npShuffleFuel_perm :
    ∀ (fuel s : Nat) (l : List α), l.length ≤ fuel →
      List.Perm (npShuffleFuel fuel s l) l := by
  intro fuel
  induction fuel with
  | zero =>
    intro s l _
    exact List.Perm.refl _
  | succ n ih =>
    intro s l h
    cases l with
    | nil => exact List.Perm.refl _
    | cons a rest =>
      simp only [npShuffleFuel]
      have hi : npNext s % (a :: rest).length < (a :: rest).length :=
        Nat.mod_lt _ (Nat.succ_pos _)
      have hlen :
          ((a :: rest).take (npNext s % (a :: rest).length) ++
            (a :: rest).drop (npNext s % (a :: rest).length + 1)).length ≤ n := by
        simp only [List.length_append, List.length_take, List.length_drop,
          List.length_cons] at *
        omega
      have hmid :
          List.Perm
            ((a :: rest).get ⟨npNext s % (a :: rest).length, hi⟩ ::
              ((a :: rest).take (npNext s % (a :: rest).length) ++
                (a :: rest).drop (npNext s % (a :: rest).length + 1)))
            ((a :: rest).take (npNext s % (a :: rest).length) ++
              (a :: rest).get ⟨npNext s % (a :: rest).length, hi⟩ ::
                (a :: rest).drop (npNext s % (a :: rest).length + 1)) :=
        List.perm_middle.symm
      refine ((ih (npNext s) _ hlen).cons _).trans (hmid.trans ?_)
      have hsplit :
          (a :: rest).take (npNext s % (a :: rest).length) ++
            (a :: rest).get ⟨npNext s % (a :: rest).length, hi⟩ ::
              (a :: rest).drop (npNext s % (a :: rest).length + 1) = a :: rest := by
        rw [List.get_eq_getElem, ← List.drop_eq_getElem_cons hi,
          List.take_append_drop]
      rw [hsplit]

lemma npShuffle_perm (seed : Nat) (l : List α) :
    List.Perm (npShuffle seed l) l :=
  npShuffleFuel_perm l.length (npNext seed) l le_rfl

lemma npShuffle_length (seed : Nat) (l : List α) :
    (npShuffle seed l).length = l.length :=
  (npShuffle_perm seed l).length_eq

lemma concat_slices (l : List α) (a b : Nat) (hab : a ≤ b) :
    l.take a ++ ((l.take b).drop a ++ l.drop b) = l := by
  rw [List.drop_take]
  have hb : l.drop b = (l.drop a).drop (b - a) := by
    rw [List.drop_drop]
    congr 1
    omega
  rw [hb, List.take_append_drop, List.take_append_drop]

lemma pyIntTrunc_of_nonneg {q : ℚ} (h : 0 ≤ q) : pyIntTrunc q = ⌊q⌋ := by
  unfold pyIntTrunc
  rw [if_neg (not_lt.mpr h)]

/-! ## Claims about the splitter -/

/-- C3: for a valid ratio pair the three groups are contiguous slices of
the shuffled cohort whose concatenation is the shuffled cohort itself
(hence, as a multiset, exactly the input cohort), with
`len(train) = floor(n * train_ratio)` and `len(test) = floor(n * test_ratio)`. -/
theorem train_test_val_split_partition {α : Type} (l : List α) (rt rs : ℚ)
    (seed : Nat) (h1 : 0 ≤ rt) (h2 : 0 ≤ rs) (h3 : rt + rs ≤ 1) :
    (train_test_val_split l (rt, rs) seed).train ++
        (train_test_val_split l (rt, rs) seed).test ++
        (train_test_val_split l (rt, rs) seed).val = npShuffle seed l ∧
    List.Perm
      ((train_test_val_split l (rt, rs) seed).train ++
        (train_test_val_split l (rt, rs) seed).test ++
        (train_test_val_split l (rt, rs) seed).val) l ∧
    ((train_test_val_split l (rt, rs) seed).train.length : ℤ) =
      ⌊(l.length : ℚ) * rt⌋ ∧
    ((train_test_val_split l (rt, rs) seed).test.length : ℤ) =
      ⌊(l.length : ℚ) * rs⌋ := by
  set d := npShuffle seed l with hd
  have hn : d.length = l.length := npShuffle_length seed l
  have hq1 : (0 : ℚ) ≤ (d.length : ℚ) * rt := mul_nonneg (Nat.cast_nonneg _) h1
  have hq2 : (0 : ℚ) ≤ (d.length : ℚ) * rs := mul_nonneg (Nat.cast_nonneg _) h2
  set t : ℤ := pyIntTrunc ((d.length : ℚ) * rt) with ht
  set u : ℤ := pyIntTrunc ((d.length : ℚ) * rs) with hu
  have ht' : t = ⌊(d.length : ℚ) * rt⌋ := pyIntTrunc_of_nonneg hq1
  have hu' : u = ⌊(d.length : ℚ) * rs⌋ := pyIntTrunc_of_nonneg hq2
  have ht0 : 0 ≤ t := ht' ▸ Int.floor_nonneg.mpr hq1
  have hu0 : 0 ≤ u := hu' ▸ Int.floor_nonneg.mpr hq2
  have hfl : (⌊(d.length : ℚ) * rt⌋ : ℚ) ≤ (d.length : ℚ) * rt :=
    Int.floor_le _
  have hfl2 : (⌊(d.length : ℚ) * rs⌋ : ℚ) ≤ (d.length : ℚ) * rs :=
    Int.floor_le _
  have hsum : (d.length : ℚ) * rt + (d.length : ℚ) * rs ≤ (d.length : ℚ) := by
    nlinarith [Nat.cast_nonneg (α := ℚ) d.length]
  have htun : t + u ≤ (d.length : ℤ) := by
    rw [ht', hu']
    have hc : ((⌊(d.length : ℚ) * rt⌋ + ⌊(d.length : ℚ) * rs⌋ : ℤ) : ℚ) ≤
        (d.length : ℚ) := by
      push_cast
      linarith
    exact_mod_cast hc
  have htr : (train_test_val_split l (rt, rs) seed).train = pySliceTo d t := rfl
  have hte : (train_test_val_split l (rt, rs) seed).test =
      pySliceFromTo d t (t + u) := rfl
  have hva : (train_test_val_split l (rt, rs) seed).val =
      pySliceFrom d (t + u) := rfl
  have hres_t : pyResolve d.length t = t.toNat := by
    unfold pyResolve
    rw [if_neg (not_lt.mpr ht0)]
    exact min_eq_left (by omega)
  have hres_tu : pyResolve d.length (t + u) = (t + u).toNat := by
    unfold pyResolve
    rw [if_neg (not_lt.mpr (by omega : (0 : ℤ) ≤ t + u))]
    exact min_eq_left (by omega)
  have hab : t.toNat ≤ (t + u).toNat := by omega
  have hbn : (t + u).toNat ≤ d.length := by omega
  have hconcat :
      (train_test_val_split l (rt, rs) seed).train ++
        (train_test_val_split l (rt, rs) seed).test ++
        (train_test_val_split l (rt, rs) seed).val = d := by
    rw [htr, hte, hva]
    unfold pySliceTo pySliceFromTo pySliceFrom
    rw [hres_t, hres_tu, List.append_assoc]
    exact concat_slices d t.toNat (t + u).toNat hab
  refine ⟨hconcat, ?_, ?_, ?_⟩
  · rw [hconcat]
    exact npShuffle_perm seed l
  · rw [htr]
    unfold pySliceTo
    rw [hres_t, List.length_take]
    rw [← hn, ht'] at *
    omega
  · rw [hte]
    unfold pySliceFromTo
    rw [hres_t, hres_tu, List.length_drop, List.length_take]
    rw [← hn, ht', hu'] at *
    omega

/-- C3 witness: the ten-element cohort of the spec's example with ratios
(3/5, 1/5) under seed 811. -/
theorem train_test_val_split_partition_witness :
    ((0 : ℚ) ≤ 3/5 ∧ (0 : ℚ) ≤ 1/5 ∧ (3 : ℚ)/5 + 1/5 ≤ 1) ∧
    ((train_test_val_split ["a", "b", "c", "d", "e", "f", "g", "h", "i", "j"]
        ((3 : ℚ)/5, (1 : ℚ)/5) 811).train.length : ℤ) =
      ⌊((["a", "b", "c", "d", "e", "f", "g", "h", "i", "j"] :
          List String).length : ℚ) * (3/5)⌋ :=
  ⟨⟨by with_unfolding_all decide, by with_unfolding_all decide,
      by with_unfolding_all decide⟩,
    (train_test_val_split_partition
      ["a", "b", "c", "d", "e", "f", "g", "h", "i", "j"] (3/5) (1/5) 811
      (by with_unfolding_all decide) (by with_unfolding_all decide)
      (by with_unfolding_all decide)).2.2.1⟩

/-- C2 counterexample: with ratios (-1/2, 2) — a negative first ratio and
a sum above 1 — `train_test_val_split` raises nothing and still returns a
partition: groups of sizes 2, 2 and 0 whose concatenation is a permutation
of the input. -/
theorem train_test_val_split_no_error_cex :
    (-(1 : ℚ)/2 < 0) ∧
    (train_test_val_split ["a", "b", "c", "d"] (-(1 : ℚ)/2, 2) 811).train.length = 2 ∧
    (train_test_val_split ["a", "b", "c", "d"] (-(1 : ℚ)/2, 2) 811).test.length = 2 ∧
    (train_test_val_split ["a", "b", "c", "d"] (-(1 : ℚ)/2, 2) 811).val.length = 0 ∧
    List.Perm
      ((train_test_val_split ["a", "b", "c", "d"] (-(1 : ℚ)/2, 2) 811).train ++
        (train_test_val_split ["a", "b", "c", "d"] (-(1 : ℚ)/2, 2) 811).test ++
        (train_test_val_split ["a", "b", "c", "d"] (-(1 : ℚ)/2, 2) 811).val)
      ["a", "b", "c", "d"] := by
  with_unfolding_all decide

/-- C2 (amended): invalid ratios (negative, or summing beyond 1) are not
rejected — the code has no validation and no raising path — and the call
still returns a result whose three groups are sub-slices of the shuffled
cohort, interpreted under Python's negative-index slice semantics. -/
theorem train_test_val_split_no_validation {α : Type} (l : List α)
    (s : ℚ × ℚ) (seed : Nat) (hinv : s.1 < 0 ∨ s.2 < 0 ∨ 1 < s.1 + s.2) :
    (train_test_val_split l s seed).train.Sublist (npShuffle seed l) ∧
    (train_test_val_split l s seed).test.Sublist (npShuffle seed l) ∧
    (train_test_val_split l s seed).val.Sublist (npShuffle seed l) := by
  refine ⟨List.take_sublist _ _, ?_, List.drop_sublist _ _⟩
  exact (List.drop_sublist _ _).trans (List.take_sublist _ _)

/-- C2 amended-theorem witness at the counterexample input. -/
theorem train_test_val_split_no_validation_witness :
    (-(1 : ℚ)/2 < 0 ∨ (2 : ℚ) < 0 ∨ 1 < -(1 : ℚ)/2 + 2) ∧
    (train_test_val_split ["a", "b", "c", "d"] (-(1 : ℚ)/2, 2) 811).train.Sublist
      (npShuffle 811 ["a", "b", "c", "d"]) :=
  ⟨Or.inl (by with_unfolding_all decide),
    (train_test_val_split_no_validation ["a", "b", "c", "d"] (-(1 : ℚ)/2, 2) 811
      (Or.inl (by with_unfolding_all decide))).1⟩

/-- C4: the splitter is deterministic — two calls with identical cohort,
ratio pair and seed produce identical train, test and val groups; the
seed argument is the only input the assignment depends on besides the
cohort and the ratios. -/
theorem train_test_val_split_deterministic {α : Type} (l1 l2 : List α)
    (s1 s2 : ℚ × ℚ) (k1 k2 : Nat) (hl : l1 = l2) (hs : s1 = s2) (hk : k1 = k2) :
    (train_test_val_split l1 s1 k1).train = (train_test_val_split l2 s2 k2).train ∧
    (train_test_val_split l1 s1 k1).test = (train_test_val_split l2 s2 k2).test ∧
    (train_test_val_split l1 s1 k1).val = (train_test_val_split l2 s2 k2).val := by
  subst hl
  subst hs
  subst hk
  exact ⟨rfl, rfl, rfl⟩

/-- C4 witness: two identical calls on a concrete cohort. -/
theorem train_test_val_split_deterministic_witness :
    (train_test_val_split ["a", "b", "c"] ((3 : ℚ)/5, (1 : ℚ)/5) 811).train =
      (train_test_val_split ["a", "b", "c"] ((3 : ℚ)/5, (1 : ℚ)/5) 811).train :=
  (train_test_val_split_deterministic ["a", "b", "c"] ["a", "b", "c"]
    ((3 : ℚ)/5, (1 : ℚ)/5) ((3 : ℚ)/5, (1 : ℚ)/5) 811 811 rfl rfl rfl).1

/-- C7 counterexample: `train_test_val_split` is not side-effect-free —
`data = input_list` aliases the caller's list and `np.random.shuffle(data)`
permutes it in place, so after the call the caller's `input_list` is in a
different order. -/
theorem input_list_mutated_cex :
    train_test_val_split_input_after ["001", "002", "003", "005", "006"]
        ((3 : ℚ)/5, (1 : ℚ)/5) 811 ≠ ["001", "002", "003", "005", "006"] := by
  decide

/-- C7 (amended): the caller's `input_list` still holds the same elements
as a multiset after the call — the in-place shuffle permutes it but adds
and removes nothing. -/
theorem input_list_after_split_perm {α : Type} (l : List α) (s : ℚ × ℚ)
    (seed : Nat) :
    List.Perm (train_test_val_split_input_after l s seed) l :=
  npShuffle_perm seed l

/-! ## Claims about the string-to-tuple parser -/

/-- Interleave a separator between segments (the inverse image of a
Python `split`). -/
def joinSep (sep : Char) : List (List Char) → List Char
  | [] => []
  | [s] => s
  | s :: rest => s ++ sep :: joinSep sep rest

lemma pySplitOn_ne_nil (sep : Char) : ∀ s : List Char, pySplitOn sep s ≠ [] := by
  intro s
  induction s with
  | nil => simp [pySplitOn]
  | cons c cs ih =>
    simp only [pySplitOn]
    cases h : pySplitOn sep cs with
    | nil => exact absurd h ih
    | cons g gs =>
      by_cases hc : c = sep <;> simp [hc]

lemma pySplitOn_single (sep : Char) (s : List Char) (hs : sep ∉ s) :
    pySplitOn sep s = [s] := by
  induction s with
  | nil => rfl
  | cons c cs ih =>
    have hc : c ≠ sep := fun h => hs (h ▸ List.mem_cons_self c cs)
    have hcs : sep ∉ cs := fun h => hs (List.mem_cons_of_mem c h)
    simp only [pySplitOn, ih hcs]
    rw [if_neg hc]

lemma pySplitOn_append (sep : Char) (s t : List Char) (hs : sep ∉ s) :
    pySplitOn sep (s ++ sep :: t) = s :: pySplitOn sep t := by
  induction s with
  | nil =>
    simp only [List.nil_append, pySplitOn]
    cases h : pySplitOn sep t with
    | nil => exact absurd h (pySplitOn_ne_nil sep t)
    | cons g gs => simp [← h]
  | cons c cs ih =>
    have hc : c ≠ sep := fun h => hs (h ▸ List.mem_cons_self c cs)
    have hcs : sep ∉ cs := fun h => hs (List.mem_cons_of_mem c h)
    simp only [List.cons_append, pySplitOn, List.append_eq, ih hcs]
    rw [if_neg hc]

lemma pySplitOn_joinSep (sep : Char) :
    ∀ segs : List (List Char), segs ≠ [] → (∀ g ∈ segs, sep ∉ g) →
      pySplitOn sep (joinSep sep segs) = segs := by
  intro segs
  induction segs with
  | nil =>
    intro hne
    exact absurd rfl hne
  | cons s rest ih =>
    intro _ hsep
    cases rest with
    | nil => exact pySplitOn_single sep s (hsep s (List.mem_cons_self s []))
    | cons s2 rest2 =>
      have hjoin : joinSep sep (s :: s2 :: rest2) =
          s ++ sep :: joinSep sep (s2 :: rest2) := rfl
      rw [hjoin, pySplitOn_append sep s _ (hsep s (List.mem_cons_self s _)),
        ih (by simp) (fun g hg => hsep g (List.mem_cons_of_mem s hg))]

lemma mem_joinSep {sep : Char} :
    ∀ {segs : List (List Char)} {c : Char}, c ∈ joinSep sep segs →
      c = sep ∨ ∃ g ∈ segs, c ∈ g := by
  intro segs
  induction segs with
  | nil =>
    intro c hc
    cases hc
  | cons s rest ih =>
    intro c hc
    cases rest with
    | nil => exact Or.inr ⟨s, List.mem_cons_self s [], hc⟩
    | cons s2 rest2 =>
      rcases List.mem_append.mp hc with h1 | h2
      · exact Or.inr ⟨s, List.mem_cons_self s _, h1⟩
      · rcases List.mem_cons.mp h2 with rfl | h3
        · exact Or.inl rfl
        · rcases ih h3 with h4 | ⟨g, hg, hcg⟩
          · exact Or.inl h4
          · exact Or.inr ⟨g, List.mem_cons_of_mem s hg, hcg⟩

lemma pyStrip_paren (mid : List Char)
    (h : ∀ c ∈ mid, c ≠ '(' ∧ c ≠ ')') :
    pyStrip ['(', ')'] ('(' :: (mid ++ [')'])) = mid := by
  have hP : ∀ c ∈ mid, (['(', ')'] : List Char).contains c = false := by
    intro c hc
    obtain ⟨h1, h2⟩ := h c hc
    simp [List.contains, h1, h2]
  unfold pyStrip
  rw [List.dropWhile_cons]
  rw [if_pos (by decide)]
  cases mid with
  | nil => rfl
  | cons m ms =>
    rw [List.cons_append, List.dropWhile_cons,
      if_neg (by rw [hP m (List.mem_cons_self m ms)]; decide)]
    rw [show (m :: (ms ++ [')']) : List Char).reverse = ')' :: (m :: ms).reverse by
      simp]
    rw [List.dropWhile_cons, if_pos (by decide)]
    rcases hrev : (m :: ms).reverse with _ | ⟨b, bs⟩
    · exact absurd hrev (by simp)
    · have hb : b ∈ m :: ms := by
        have hbr : b ∈ (m :: ms).reverse := hrev ▸ List.mem_cons_self b bs
        exact List.mem_reverse.mp hbr
      rw [List.dropWhile_cons, if_neg (by rw [hP b hb]; decide), ← hrev,
        List.reverse_reverse]

/-- C9: on a parenthesised, comma-separated input built from numeric
segments the parser returns exactly the integer truncations of the
segments' rational values, and propagates failure (`none`) when a segment
is not numeric: the result is the `mapM` of truncation over the
segments. -/
theorem string_to_int_tuple_spec (segs : List (List Char)) (hne : segs ≠ [])
    (hclean : ∀ g ∈ segs, ',' ∉ g ∧ '(' ∉ g ∧ ')' ∉ g) :
    string_to_int_tuple ⟨'(' :: (joinSep ',' segs ++ [')'])⟩ =
      segs.mapM (fun seg => (pyFloatQ seg).map pyIntTrunc) := by
  have hmid : ∀ c ∈ joinSep ',' segs, c ≠ '(' ∧ c ≠ ')' := by
    intro c hc
    rcases mem_joinSep hc with rfl | ⟨g, hg, hcg⟩
    · exact ⟨by decide, by decide⟩
    · obtain ⟨_, hp1, hp2⟩ := hclean g hg
      exact ⟨fun he => hp1 (he ▸ hcg), fun he => hp2 (he ▸ hcg)⟩
  show (pySplitOn ','
      (pyStrip ['(', ')'] ('(' :: (joinSep ',' segs ++ [')'])))).mapM
      (fun seg => (pyFloatQ seg).map pyIntTrunc) =
    segs.mapM (fun seg => (pyFloatQ seg).map pyIntTrunc)
  rw [pyStrip_paren _ hmid,
    pySplitOn_joinSep ',' segs hne (fun g hg => (hclean g hg).1)]

/-- C9 witness: the spec's example, including truncation of the fractional
parts and whitespace inside the tuple. -/
theorem string_to_int_tuple_spec_witness :
    string_to_int_tuple "(10012.4, 20032.9)" = some [10012, 20032] := by
  have h := string_to_int_tuple_spec
    [['1', '0', '0', '1', '2', '.', '4'],
     [' ', '2', '0', '0', '3', '2', '.', '9']]
    (by decide) (by decide)
  exact h.trans (by decide)

/-! ## Claims about the ROI extractors -/

lemma head_filter_eq_of_unique {α : Type} (p : α → Bool) :
    ∀ (l : List α) (x : α), x ∈ l → p x = true →
      (∀ y ∈ l, p y = true → y = x) → (l.filter p).head? = some x := by
  intro l
  induction l with
  | nil =>
    intro x hx
    cases hx
  | cons a as ih =>
    intro x hx hpx huniq
    by_cases hpa : p a = true
    · have hax : a = x := huniq a (List.mem_cons_self a as) hpa
      rw [List.filter_cons_of_pos hpa]
      simp [hax]
    · rw [List.filter_cons_of_neg (by simpa using hpa)]
      rcases List.mem_cons.mp hx with rfl | hmem
      · exact absurd hpx hpa
      · exact ih x hmem hpx (fun y hy hpy => huniq y (List.mem_cons_of_mem a hy) hpy)

/-- C8: the extractors return `none` (the `IndexError` of indexing an
empty filter result) exactly when no record carries the requested index,
and succeed with an empty result when the matching record has an empty
position (resp. region) list — absence is distinguishable from
no-geometry. -/
theorem roi_extractors_absence_vs_empty (bl : List BinRecord)
    (ml : List MultRecord) (i : Nat) :
    ((∀ x ∈ bl, x.idx ≠ i) → get_pos_from_bin_list bl i = none) ∧
    ((∀ x ∈ ml, x.idx ≠ i) → get_pos_from_mult_list ml i = none) ∧
    (∀ x ∈ bl, x.idx = i → (∀ y ∈ bl, y.idx = i → y = x) → x.pos = [] →
      get_pos_from_bin_list bl i = some []) ∧
    (∀ x ∈ ml, x.idx = i → (∀ y ∈ ml, y.idx = i → y = x) → x.roi = [] →
      get_pos_from_mult_list ml i = some []) := by
  refine ⟨?_, ?_, ?_, ?_⟩
  · intro h
    unfold get_pos_from_bin_list
    have hnil : bl.filter (fun x => x.idx == i) = [] :=
      List.filter_eq_nil_iff.mpr (fun x hx => by simpa using h x hx)
    rw [hnil]
    rfl
  · intro h
    unfold get_pos_from_mult_list
    have hnil : ml.filter (fun x => x.idx == i) = [] :=
      List.filter_eq_nil_iff.mpr (fun x hx => by simpa using h x hx)
    rw [hnil]
    rfl
  · intro x hx hxi huniq hpos
    unfold get_pos_from_bin_list
    rw [head_filter_eq_of_unique (fun y => y.idx == i) bl x hx
      (by simpa using hxi) (fun y hy hpy => huniq y hy (by simpa using hpy))]
    simp [hpos]
  · intro x hx hxi huniq hroi
    unfold get_pos_from_mult_list
    rw [head_filter_eq_of_unique (fun y => y.idx == i) ml x hx
      (by simpa using hxi) (fun y hy hpy => huniq y hy (by simpa using hpy))]
    simp [hroi]

/-- C8 witness: a record list without index 5 yields `none`; a matching
record with empty geometry yields `some []`. -/
theorem roi_extractors_absence_vs_empty_witness :
    get_pos_from_bin_list [⟨1, [(2, 3)]⟩] 5 = none ∧
    get_pos_from_mult_list [⟨1, []⟩] 5 = none ∧
    get_pos_from_bin_list [⟨1, []⟩] 1 = some [] ∧
    get_pos_from_mult_list [⟨1, []⟩] 1 = some [] :=
  ⟨(roi_extractors_absence_vs_empty [⟨1, [(2, 3)]⟩] [⟨1, []⟩] 5).1
      (by intro x hx; rw [List.mem_singleton.mp hx]; decide),
   (roi_extractors_absence_vs_empty [⟨1, [(2, 3)]⟩] [⟨1, []⟩] 5).2.1
      (by intro x hx; rw [List.mem_singleton.mp hx]; decide),
   (roi_extractors_absence_vs_empty [⟨1, []⟩] [⟨1, []⟩] 1).2.2.1
      ⟨1, []⟩ (List.mem_singleton.mpr rfl) rfl
      (fun y hy _ => List.mem_singleton.mp hy) rfl,
   (roi_extractors_absence_vs_empty [⟨1, []⟩] [⟨1, []⟩] 1).2.2.2
      ⟨1, []⟩ (List.mem_singleton.mpr rfl) rfl
      (fun y hy _ => List.mem_singleton.mp hy) rfl⟩

/-! ## Claims about the cohort builder -/

/-- C1: for every `min_val ≤ max_val` the filtered cohort is disjoint from
all six blacklists (including the with-roi one, which the code never
subtracts but which is contained in the multiple-image blacklist), has no
duplicates, is a subset of the generated range, and is sorted
lexicographically. -/
theorem filtered_range_cohort_invariants (mn mx : Nat) (h : mn ≤ mx) :
    (∀ x ∈ filtered_patient_number_zfill_range mn mx,
        x ∉ blacklist_pixel_overlap ∧ x ∉ blacklist_mislabelled_roi ∧
        x ∉ blacklist_multiple_image_id_with_roi ∧
        x ∉ blacklist_multiple_image_id ∧ x ∉ blacklist_invalid_dicom ∧
        x ∉ blacklist_no_image) ∧
    (filtered_patient_number_zfill_range mn mx).Nodup ∧
    filtered_patient_number_zfill_range mn mx ⊆ patient_number_zfill_range mn mx ∧
    (filtered_patient_number_zfill_range mn mx).Sorted (· ≤ ·) := by
  refine ⟨?_, nodup_filtered mn mx, ?_, sorted_filtered mn mx⟩
  · intro x hx
    obtain ⟨_, h1, h2, h3, h4, h5⟩ := mem_filtered_iff.mp hx
    exact ⟨h1, h2, fun hw => h3 (withRoi_sub_multipleImage x hw), h3, h4, h5⟩
  · intro x hx
    exact (mem_filtered_iff.mp hx).1

/-- C1 witness at the range 1..15. -/
theorem filtered_range_cohort_invariants_witness :
    (∀ x ∈ filtered_patient_number_zfill_range 1 15,
        x ∉ blacklist_pixel_overlap ∧ x ∉ blacklist_mislabelled_roi ∧
        x ∉ blacklist_multiple_image_id_with_roi ∧
        x ∉ blacklist_multiple_image_id ∧ x ∉ blacklist_invalid_dicom ∧
        x ∉ blacklist_no_image) ∧
    (filtered_patient_number_zfill_range 1 15).Nodup ∧
    filtered_patient_number_zfill_range 1 15 ⊆ patient_number_zfill_range 1 15 ∧
    (filtered_patient_number_zfill_range 1 15).Sorted (· ≤ ·) :=
  filtered_range_cohort_invariants 1 15 (by decide)

/-- C5 counterexample: at `min_val = max_val = 1000` the produced element
`"1000"` does not have width 3, refuting the width clause of the claim as
stated for every `min_val ≤ max_val`. -/
theorem patient_number_zfill_range_width_cex :
    1000 ≤ 1000 ∧ "1000" ∈ patient_number_zfill_range 1000 1000 ∧
      String.length "1000" ≠ 3 := by
  decide

/-- C5 (amended): for `min_val ≤ max_val` the range has length
`max_val - min_val + 1`; every element has width exactly 3 provided
`max_val ≤ 999`; and the 1..5 example holds. -/
theorem patient_number_zfill_range_spec (mn mx : Nat) (h : mn ≤ mx) :
    (patient_number_zfill_range mn mx).length = mx - mn + 1 ∧
    (mx ≤ 999 → ∀ s ∈ patient_number_zfill_range mn mx, s.length = 3) ∧
    patient_number_zfill_range 1 5 = ["001", "002", "003", "004", "005"] := by
  refine ⟨?_, ?_, by decide⟩
  · rw [length_patient_number_zfill_range]; omega
  · intro h999 s hs
    simp only [patient_number_zfill_range, List.mem_map, List.mem_range'_1] at hs
    obtain ⟨i, hi, rfl⟩ := hs
    exact width3_of_le_999 i (by omega)

/-- C5 witness at the range 1..5. -/
theorem patient_number_zfill_range_spec_witness :
    (patient_number_zfill_range 1 5).length = 5 - 1 + 1 ∧
    (5 ≤ 999 → ∀ s ∈ patient_number_zfill_range 1 5, s.length = 3) ∧
    patient_number_zfill_range 1 5 = ["001", "002", "003", "004", "005"] :=
  patient_number_zfill_range_spec 1 5 (by decide)

/-- C6 counterexample: `"012"` lies in the generated range 1..15, differs
from `"004"` and `"013"`, and is nevertheless removed by the filter (it is
in the no-image blacklist), so those two are not the only identifiers
removed. -/
theorem filtered_range_1_15_cex :
    "012" ∈ patient_number_zfill_range 1 15 ∧
    "012" ∉ filtered_patient_number_zfill_range 1 15 ∧
    "012" ≠ "004" ∧ "012" ≠ "013" := by
  decide

/-- C6 (amended): `filtered_patient_number_zfill_range 1 15` returns every
zero-padded identifier from "001" through "015" except exactly "004",
"012" and "013". -/
theorem filtered_range_1_15_eq :
    filtered_patient_number_zfill_range 1 15 =
      ["001", "002", "003", "005", "006", "007", "008", "009", "010",
       "011", "014", "015"] := by
  decide

/-- C10: every identifier in the with-roi blacklist is also in the
multiple-image blacklist, so the filtered cohort — although the code never
subtracts the with-roi blacklist — is disjoint from it for every range. -/
theorem filtered_range_disjoint_with_roi :
    (∀ x ∈ blacklist_multiple_image_id_with_roi,
        x ∈ blacklist_multiple_image_id) ∧
    ∀ (mn mx : Nat) (x : String), x ∈ filtered_patient_number_zfill_range mn mx →
      x ∉ blacklist_multiple_image_id_with_roi := by
  refine ⟨withRoi_sub_multipleImage, ?_⟩
  intro mn mx x hx hw
  exact (mem_filtered_iff.mp hx).2.2.2.1 (withRoi_sub_multipleImage x hw)

/-- C10 witness: instantiated at the range 1..15 and the identifier
"001". -/
theorem filtered_range_disjoint_with_roi_witness :
    "001" ∉ blacklist_multiple_image_id_with_roi :=
  filtered_range_disjoint_with_roi.2 1 15 "001" (by decide)

end CardiacSeg
